import Mathlib

/-
Verification of the SSE stream consumer and low-level request path of a Go
HTTP client library (client.go).

Shallow embedding conventions:
- One raw line of the response body (what bufio ReadString returns, minus the
  final newline byte) is a List Char; the whole stream is a List (List Char)
  followed by a ReadEnd (clean end of stream, or a read error).
- JSON decoding of a run-state payload is an abstract parameter
  decode : List Char -> Option R; decoding of a validation-error body is
  parseVE : List Char -> Option VE.  The claims quantify over these.
- Go library functions used by the source (strings.TrimRight, strings.Join,
  strings.TrimSuffix, strings.TrimSpace, strings.IndexByte) are translated
  to the List Char functions below with the same semantics.
-/

set_option maxHeartbeats 1000000

/-- How a read of the response stream ends: clean end of stream (io.EOF), or a
non-EOF read error carrying a message. -/
inductive ReadEnd where
  | eof
  | fail (msg : List Char)
deriving DecidableEq

/-- Character class of the Go cutset used by TrimRight on each raw line
(carriage return and newline). -/
def isRN (c : Char) : Bool := c == '\r' || c == '\n'

/-- Go strings.TrimRight: drop the maximal suffix of characters satisfying p. -/
def trimRightBy (p : Char → Bool) : List Char → List Char
  | [] => []
  | c :: rest => if trimRightBy p rest = [] ∧ p c then [] else c :: trimRightBy p rest

/-- strings.TrimRight(line, the CR-LF cutset), applied to every raw line. -/
def trimRightRN (l : List Char) : List Char := trimRightBy isRN l

/-- Go unicode.IsSpace on the code points relevant to strings.TrimSpace. -/
def isGoSpace (c : Char) : Bool :=
  c == ' ' || c == '\t' || c == '\n' || c == Char.ofNat 11 || c == Char.ofNat 12 ||
    c == '\r' || c == Char.ofNat 133 || c == Char.ofNat 160

/-- Go strings.TrimSpace, used on response bodies before error construction. -/
def trimSpace (l : List Char) : List Char := trimRightBy isGoSpace (l.dropWhile isGoSpace)

/-- Go strings.TrimSuffix(data, a newline): remove exactly one trailing newline
character when present. -/
def trimSuffixNL : List Char → List Char
  | [] => []
  | c :: rest => if c = '\n' ∧ rest = [] then [] else c :: trimSuffixNL rest

/-- Go strings.Join(dataLines, a newline separator). -/
def joinNL : List (List Char) → List Char
  | [] => []
  | d :: rest => if rest = [] then d else d ++ '\n' :: joinNL rest

/-- Split a line at its first colon: Go strings.IndexByte(line, colon) with
field = line[:i] and value = line[i+1:]; a line without a colon yields the
whole line as field name and an empty value. -/
def splitFirstColon : List Char → List Char × List Char
  | [] => ([], [])
  | c :: rest =>
    if c = ':' then ([], rest)
    else (c :: (splitFirstColon rest).1, (splitFirstColon rest).2)

/-- Remove exactly one leading space from a field value when present. -/
def stripLeadSpace (v : List Char) : List Char :=
  if v.head? = some ' ' then v.tail else v

/-- The per-record accumulator of the read loop: the currentEvent and
dataLines variables of RunStreamingAgentAndWait. -/
structure PAcc where
  currentEvent : List Char
  dataLines : List (List Char)
deriving DecidableEq

/-- One non-blank, non-comment line: split into field and value (one leading
space stripped from the value), then the switch on the field name: "event"
overwrites currentEvent, "data" appends one data line, anything else is
ignored. -/
def processField (l : List Char) (a : PAcc) : PAcc :=
  if (splitFirstColon l).1 = ("event".toList) then
    { a with currentEvent := stripLeadSpace (splitFirstColon l).2 }
  else if (splitFirstColon l).1 = ("data".toList) then
    { a with dataLines := a.dataLines ++ [stripLeadSpace (splitFirstColon l).2] }
  else a

/-- Parser part of the dispatch closure: the empty-accumulator check, the
join of the data lines with one trailing newline trimmed, and the silent drop
of a record whose joined data is empty.  Yields the record (event type and
payload) that is handed on for decoding, or none. -/
def pdispatch (a : PAcc) : Option (List Char × List Char) :=
  if a.currentEvent = [] ∧ a.dataLines = [] then none
  else if trimSuffixNL (joinNL a.dataLines) = [] then none
  else some (a.currentEvent, trimSuffixNL (joinNL a.dataLines))

/-- The dispatch closure of RunStreamingAgentAndWait.  First component is the
lastSeen variable after the call; second is the completion result (non-none
exactly when a done record decodes, which ends the read loop). -/
def dispatch {R : Type} (decode : List Char → Option R) (a : PAcc) (last : Option R) :
    Option R × Option R :=
  if a.currentEvent = [] ∧ a.dataLines = [] then (last, none)
  else if trimSuffixNL (joinNL a.dataLines) = [] then (last, none)
  else if a.currentEvent = ("init".toList) ∨ a.currentEvent = ("done".toList) then
    match decode (trimSuffixNL (joinNL a.dataLines)) with
    | some parsed =>
      if a.currentEvent = ("done".toList) then (some parsed, some parsed)
      else (some parsed, none)
    | none => (last, none)
  else (last, none)

/-- Observable outcome of the read loop: the returned state with a nil error,
the dedicated stream-ended-before-done error, or a propagated read error. -/
inductive StreamOutcome (R : Type) where
  | success (state : R)
  | endedBeforeDone
  | readError (msg : List Char)
deriving DecidableEq

/-- The read loop of RunStreamingAgentAndWait (client.go lines 303-345): read a
line; on EOF dispatch once more, then fall back to lastSeen or fail; on a read
error return it; a blank line dispatches; a colon-led line is skipped; any
other line is processed as a field line. -/
def runSSELoop {R : Type} (decode : List Char → Option R) :
    List (List Char) → ReadEnd → PAcc → Option R → StreamOutcome R
  | [], .eof, a, last =>
    match dispatch decode a last with
    | (_, some d) => .success d
    | (last2, none) =>
      match last2 with
      | some s => .success s
      | none => .endedBeforeDone
  | [], .fail m, _, _ => .readError m
  | rl :: rest, e, a, last =>
    if trimRightRN rl = [] then
      match dispatch decode a last with
      | (_, some d) => .success d
      | (last2, none) => runSSELoop decode rest e ⟨[], []⟩ last2
    else if (trimRightRN rl).head? = some ':' then runSSELoop decode rest e a last
    else runSSELoop decode rest e (processField (trimRightRN rl) a) last

/-- The read loop started from the empty accumulator and no last-seen state. -/
def runStream {R : Type} (decode : List Char → Option R) (lines : List (List Char))
    (e : ReadEnd) : StreamOutcome R :=
  runSSELoop decode lines e ⟨[], []⟩ none

/-- The sequence of non-empty records dispatched by the read loop (parser
view): dispatch at every blank-line boundary and, on clean EOF, once at end of
stream; a read error returns without a final dispatch. -/
def parseRecords : List (List Char) → ReadEnd → PAcc → List (List Char × List Char)
  | [], .eof, a => (pdispatch a).toList
  | [], .fail _, _ => []
  | rl :: rest, e, a =>
    if trimRightRN rl = [] then (pdispatch a).toList ++ parseRecords rest e ⟨[], []⟩
    else if (trimRightRN rl).head? = some ':' then parseRecords rest e a
    else parseRecords rest e (processField (trimRightRN rl) a)

/-- The run-completion tracker over a dispatched record sequence: decode
init/done payloads, remember the last successful decode, stop at the first
decodable done record, and resolve the stream end. -/
def trackRecords {R : Type} (decode : List Char → Option R) :
    List (List Char × List Char) → ReadEnd → Option R → StreamOutcome R
  | [], .eof, last =>
    match last with
    | some s => .success s
    | none => .endedBeforeDone
  | [], .fail m, _ => .readError m
  | (ev, d) :: rest, e, last =>
    if ev = ("init".toList) ∨ ev = ("done".toList) then
      match decode d with
      | some s => if ev = ("done".toList) then .success s else trackRecords decode rest e (some s)
      | none => trackRecords decode rest e last
    else trackRecords decode rest e last

/-- The spec-side classification of one raw line as a data line: its value if
it is a non-blank, non-comment line whose field name is "data". -/
def lineDataValue (rl : List Char) : Option (List Char) :=
  if trimRightRN rl = [] then none
  else if (trimRightRN rl).head? = some ':' then none
  else if (splitFirstColon (trimRightRN rl)).1 = ("data".toList) then
    some (stripLeadSpace (splitFirstColon (trimRightRN rl)).2)
  else none

/-- Last successfully decoded run state over a record sequence, starting from
a given last-seen value. -/
def lastDecodedFrom {R : Type} (decode : List Char → Option R) (last0 : Option R)
    (rs : List (List Char × List Char)) : Option R :=
  rs.foldl (fun last r =>
    if r.1 = ("init".toList) ∨ r.1 = ("done".toList) then
      match decode r.2 with
      | some s => some s
      | none => last
    else last) last0

/-- Last successfully decoded run state over a record sequence. -/
def lastDecodedState {R : Type} (decode : List Char → Option R)
    (rs : List (List Char × List Char)) : Option R :=
  lastDecodedFrom decode none rs

/-- ys is xs with any number of comment lines (lines beginning with a colon)
inserted at any positions. -/
inductive CommentInsertion : List (List Char) → List (List Char) → Prop
  | nil : CommentInsertion [] []
  | keep (l : List Char) {xs ys : List (List Char)} :
      CommentInsertion xs ys → CommentInsertion (l :: xs) (l :: ys)
  | comment (c : List Char) {xs ys : List (List Char)} :
      c.head? = some ':' → CommentInsertion xs ys → CommentInsertion xs (c :: ys)

/-- The fields of APIStatusError: status code, method, URL and the trimmed
response body text. -/
structure StatusErr where
  statusCode : Nat
  method : List Char
  url : List Char
  responseText : List Char
deriving DecidableEq

/-- Observable result of Do: nil error with an optionally updated out value
(none means out was never written to), a status error, a validation error
(status 422) with an optional structured payload, or a JSON decode error of
the 2xx body. -/
inductive DoResult (VE O : Type) where
  | ok (decoded : Option O)
  | statusFail (e : StatusErr)
  | validationFail (e : StatusErr) (validationPayload : Option VE)
  | decodeFail
deriving DecidableEq

/-- The response-handling tail of Do (client.go lines 158-180): non-2xx status
builds APIStatusError (the 422 variant recognising a validation body), a nil
out short-circuits, an empty 2xx body short-circuits, otherwise the body is
decoded into out. -/
def Do {VE O : Type} (parseVE : List Char → Option VE) (decodeOut : List Char → Option O)
    (method url : List Char) (status : Nat) (raw : List Char) (outNil : Bool) : DoResult VE O :=
  if status < 200 ∨ 300 ≤ status then
    if status = 422 then
      if raw ≠ [] then
        match parseVE raw with
        | some ve => .validationFail ⟨status, method, url, trimSpace raw⟩ (some ve)
        | none => .validationFail ⟨status, method, url, trimSpace raw⟩ none
      else .validationFail ⟨status, method, url, trimSpace raw⟩ none
    else .statusFail ⟨status, method, url, trimSpace raw⟩
  else if outNil then .ok none
  else if raw = [] then .ok none
  else
    match decodeOut raw with
    | some o => .ok (some o)
    | none => .decodeFail

/-- Observable result of RunStreamingAgentAndWait: a stream outcome, or one of
the connection-time status errors. -/
inductive StreamResult (R VE : Type) where
  | success (state : R)
  | endedBeforeDone
  | readFail (msg : List Char)
  | statusFail (e : StatusErr)
  | validationFail (e : StatusErr) (validationPayload : Option VE)
deriving DecidableEq

/-- Inclusion of read-loop outcomes into the full result type. -/
def liftOutcome {R VE : Type} : StreamOutcome R → StreamResult R VE
  | .success s => .success s
  | .endedBeforeDone => .endedBeforeDone
  | .readError m => .readFail m

/-- RunStreamingAgentAndWait after the response arrives (client.go lines
257-345): a non-2xx status short-circuits into the same error taxonomy as Do
(with method POST), before any stream parsing; otherwise the read loop runs. -/
def RunStreamingAgentAndWait {R VE : Type} (parseVE : List Char → Option VE)
    (decode : List Char → Option R) (url : List Char) (status : Nat) (raw : List Char)
    (lines : List (List Char)) (e : ReadEnd) : StreamResult R VE :=
  if status < 200 ∨ 300 ≤ status then
    if status = 422 then
      if raw ≠ [] then
        match parseVE raw with
        | some ve => .validationFail ⟨status, ("POST".toList), url, trimSpace raw⟩ (some ve)
        | none => .validationFail ⟨status, ("POST".toList), url, trimSpace raw⟩ none
      else .validationFail ⟨status, ("POST".toList), url, trimSpace raw⟩ none
    else .statusFail ⟨status, ("POST".toList), url, trimSpace raw⟩
  else liftOutcome (runStream decode lines e)

/-- A Go context, reduced to its deadline (absolute time in seconds). -/
structure GoContext where
  deadline : Option Nat
deriving DecidableEq

/-- context.Background(): no deadline. -/
def contextBackground : GoContext := ⟨none⟩

/-- context.WithDeadline: the child keeps the parent deadline when it is
already earlier. -/
def contextWithDeadline (c : GoContext) (d : Nat) : GoContext :=
  match c.deadline with
  | some cur => if cur ≤ d then c else ⟨some d⟩
  | none => ⟨some d⟩

/-- context.WithTimeout(ctx, dur) at absolute time now. -/
def contextWithTimeout (c : GoContext) (now dur : Nat) : GoContext :=
  contextWithDeadline c (now + dur)

/-- The context prologue of RunStreamingAgentAndWait (client.go lines 228-235):
a nil context becomes Background, and a context without a deadline receives a
default 60-second timeout; a context that already has a deadline is kept. -/
def streamContext (ctx : Option GoContext) (now : Nat) : GoContext :=
  let c := match ctx with | none => contextBackground | some c0 => c0
  if c.deadline.isSome then c else contextWithTimeout c now 60

/-- A payload that can occur inside one raw line: it contains no newline and
no carriage return character. -/
def lineSafe (l : List Char) : Prop := ∀ c ∈ l, c ≠ '\n' ∧ c ≠ '\r'

instance (l : List Char) : Decidable (lineSafe l) :=
  List.decidableBAll _ l

/-- An SSE event line carrying event type v. -/
def eventLine (v : List Char) : List Char := ("event: ".toList) ++ v

/-- An SSE data line carrying value v. -/
def dataLine (v : List Char) : List Char := ("data: ".toList) ++ v

/-- A concrete decoder used to instantiate the abstract JSON decoding in
witnesses. -/
def decNat (l : List Char) : Option Nat :=
  if l = ("1".toList) then some 1 else if l = ("2".toList) then some 2 else none

/-- A concrete validation-body decoder that never succeeds, used in
witnesses. -/
def pvNone (_ : List Char) : Option Nat := none

/-- Equation lemma for trimRightBy on a cons cell. -/
lemma trimRightBy_cons (p : Char → Bool) (c : Char) (rest : List Char) :
    trimRightBy p (c :: rest) =
      if trimRightBy p rest = [] ∧ p c then [] else c :: trimRightBy p rest := rfl

/-- Equation lemma for trimSuffixNL on a cons cell. -/
lemma trimSuffixNL_cons (c : Char) (rest : List Char) :
    trimSuffixNL (c :: rest) =
      if c = '\n' ∧ rest = [] then [] else c :: trimSuffixNL rest := rfl

/-- Equation lemma for splitFirstColon on a cons cell. -/
lemma splitFirstColon_cons (c : Char) (rest : List Char) :
    splitFirstColon (c :: rest) =
      if c = ':' then ([], rest)
      else (c :: (splitFirstColon rest).1, (splitFirstColon rest).2) := rfl

lemma isRN_eq_false {c : Char} (h1 : c ≠ '\n') (h2 : c ≠ '\r') : isRN c = false := by
  simp [isRN, h1, h2]

lemma lineSafe_append {x y : List Char} (hx : lineSafe x) (hy : lineSafe y) :
    lineSafe (x ++ y) :=
  fun c hc => (List.mem_append.1 hc).elim (hx c) (hy c)

/-- A line without carriage returns or newlines is untouched by the
right-trim of the read loop. -/
lemma trimRightRN_of_lineSafe {l : List Char} (h : lineSafe l) : trimRightRN l = l := by
  unfold trimRightRN
  induction l with
  | nil => rfl
  | cons c rest ih =>
    have hc := h c (List.mem_cons_self c rest)
    have hrest : lineSafe rest := fun x hx => h x (List.mem_cons_of_mem c hx)
    rw [trimRightBy_cons, ih hrest, if_neg]
    rintro ⟨-, h2⟩
    rw [isRN_eq_false hc.1 hc.2] at h2
    exact absurd h2 (by simp)

/-- A payload without newlines is untouched by the one-trailing-newline trim. -/
lemma trimSuffixNL_of_lineSafe {l : List Char} (h : lineSafe l) : trimSuffixNL l = l := by
  induction l with
  | nil => rfl
  | cons c rest ih =>
    have hc := h c (List.mem_cons_self c rest)
    rw [trimSuffixNL_cons, ih (fun x hx => h x (List.mem_cons_of_mem c hx)), if_neg]
    rintro ⟨h1, -⟩
    exact hc.1 h1

/-- A line beginning with a colon still begins with a colon (and is non-empty)
after the right-trim. -/
lemma trimRightRN_comment {l : List Char} (hc : l.head? = some ':') :
    trimRightRN l ≠ [] ∧ (trimRightRN l).head? = some ':' := by
  cases l with
  | nil => cases hc
  | cons c rest =>
    have hcc : c = ':' := by simpa using hc
    subst hcc
    unfold trimRightRN
    rw [trimRightBy_cons, if_neg]
    · exact ⟨by simp, rfl⟩
    · rintro ⟨-, h2⟩
      have hf : isRN ':' = false := by decide
      rw [hf] at h2
      exact absurd h2 (by simp)

/-- splitFirstColon on a line without a colon: the whole line is the field
name and the value is empty. -/
lemma splitFirstColon_no_colon {l : List Char} (h : ':' ∉ l) :
    splitFirstColon l = (l, []) := by
  induction l with
  | nil => rfl
  | cons c rest ih =>
    rw [splitFirstColon_cons, if_neg (fun hcc => h (List.mem_cons.2 (Or.inl hcc.symm))),
      ih (fun hm => h (List.mem_cons_of_mem c hm))]

/-- splitFirstColon splits exactly at the first colon of the line. -/
lemma splitFirstColon_first {pre : List Char} (h : ':' ∉ pre) (post : List Char) :
    splitFirstColon (pre ++ ':' :: post) = (pre, post) := by
  induction pre with
  | nil => rw [List.nil_append, splitFirstColon_cons, if_pos rfl]
  | cons c rest ih =>
    rw [List.cons_append, splitFirstColon_cons,
      if_neg (fun hcc => h (List.mem_cons.2 (Or.inl hcc.symm))),
      ih (fun hm => h (List.mem_cons_of_mem c hm))]

lemma eventLine_eq (v : List Char) :
    eventLine v = 'e' :: 'v' :: 'e' :: 'n' :: 't' :: ':' :: ' ' :: v := rfl

lemma dataLine_eq (v : List Char) :
    dataLine v = 'd' :: 'a' :: 't' :: 'a' :: ':' :: ' ' :: v := rfl

lemma processField_eventLine (v : List Char) (a : PAcc) :
    processField (eventLine v) a = ⟨v, a.dataLines⟩ := rfl

lemma processField_dataLine (v : List Char) (a : PAcc) :
    processField (dataLine v) a = ⟨a.currentEvent, a.dataLines ++ [v]⟩ := rfl

/-- Equation lemma for the read loop on a cons cell. -/
lemma runSSELoop_cons {R : Type} (decode : List Char → Option R) (rl : List Char)
    (rest : List (List Char)) (e : ReadEnd) (a : PAcc) (last : Option R) :
    runSSELoop decode (rl :: rest) e a last =
      if trimRightRN rl = [] then
        match dispatch decode a last with
        | (_, some d) => .success d
        | (last2, none) => runSSELoop decode rest e ⟨[], []⟩ last2
      else if (trimRightRN rl).head? = some ':' then runSSELoop decode rest e a last
      else runSSELoop decode rest e (processField (trimRightRN rl) a) last := rfl

/-- Equation lemma for the record parser on a cons cell. -/
lemma parseRecords_cons (rl : List Char) (rest : List (List Char)) (e : ReadEnd) (a : PAcc) :
    parseRecords (rl :: rest) e a =
      if trimRightRN rl = [] then (pdispatch a).toList ++ parseRecords rest e ⟨[], []⟩
      else if (trimRightRN rl).head? = some ':' then parseRecords rest e a
      else parseRecords rest e (processField (trimRightRN rl) a) := rfl

/-- A blank line triggers the dispatch closure. -/
lemma step_blank {R : Type} (decode : List Char → Option R) (rest : List (List Char))
    (e : ReadEnd) (a : PAcc) (last : Option R) :
    runSSELoop decode ([] :: rest) e a last =
      match dispatch decode a last with
      | (_, some d) => .success d
      | (last2, none) => runSSELoop decode rest e ⟨[], []⟩ last2 := rfl

/-- A non-blank, non-comment line is processed as a field line. -/
lemma step_field {R : Type} (decode : List Char → Option R) (rl : List Char)
    (rest : List (List Char)) (e : ReadEnd) (a : PAcc) (last : Option R)
    (h1 : trimRightRN rl ≠ []) (h2 : ¬ (trimRightRN rl).head? = some ':') :
    runSSELoop decode (rl :: rest) e a last =
      runSSELoop decode rest e (processField (trimRightRN rl) a) last := by
  rw [runSSELoop_cons, if_neg h1, if_neg h2]

/-- A comment line is skipped entirely. -/
lemma step_comment {R : Type} (decode : List Char → Option R) (rl : List Char)
    (rest : List (List Char)) (e : ReadEnd) (a : PAcc) (last : Option R)
    (h : rl.head? = some ':') :
    runSSELoop decode (rl :: rest) e a last = runSSELoop decode rest e a last := by
  obtain ⟨hne, hh⟩ := trimRightRN_comment h
  rw [runSSELoop_cons, if_neg hne, if_pos hh]

/-- An event line overwrites the current event type. -/
lemma step_eventLine {R : Type} (decode : List Char → Option R) (v : List Char)
    (hv : lineSafe v) (rest : List (List Char)) (e : ReadEnd) (ce : List Char)
    (dls : List (List Char)) (last : Option R) :
    runSSELoop decode (eventLine v :: rest) e ⟨ce, dls⟩ last =
      runSSELoop decode rest e ⟨v, dls⟩ last := by
  have ht : trimRightRN (eventLine v) = eventLine v :=
    trimRightRN_of_lineSafe (lineSafe_append (by decide) hv)
  rw [runSSELoop_cons, ht,
    if_neg (by rw [eventLine_eq]; simp),
    if_neg (by rw [eventLine_eq]; simp only [List.head?_cons]; decide),
    processField_eventLine]

/-- A data line appended to an empty data-line list. -/
lemma step_dataLine0 {R : Type} (decode : List Char → Option R) (v : List Char)
    (hv : lineSafe v) (rest : List (List Char)) (e : ReadEnd) (ce : List Char)
    (last : Option R) :
    runSSELoop decode (dataLine v :: rest) e ⟨ce, []⟩ last =
      runSSELoop decode rest e ⟨ce, [v]⟩ last := by
  have ht : trimRightRN (dataLine v) = dataLine v :=
    trimRightRN_of_lineSafe (lineSafe_append (by decide) hv)
  rw [runSSELoop_cons, ht,
    if_neg (by rw [dataLine_eq]; simp),
    if_neg (by rw [dataLine_eq]; simp only [List.head?_cons]; decide),
    processField_dataLine]
  rfl

/-- The dispatch closure on a single-data-line record whose payload carries no
trailing newline. -/
lemma dispatch_single {R : Type} (decode : List Char → Option R) (ev p : List Char)
    (last : Option R) (hp : trimSuffixNL p = p) :
    dispatch decode ⟨ev, [p]⟩ last =
      if p = [] then (last, none)
      else if ev = ("init".toList) ∨ ev = ("done".toList) then
        match decode p with
        | some s => if ev = ("done".toList) then (some s, some s) else (some s, none)
        | none => (last, none)
      else (last, none) := by
  have hJ : trimSuffixNL (joinNL [p]) = p := by
    rw [show joinNL [p] = p from rfl]; exact hp
  show (if ev = [] ∧ ([p] : List (List Char)) = [] then (last, none)
    else if trimSuffixNL (joinNL [p]) = [] then (last, none)
    else if ev = ("init".toList) ∨ ev = ("done".toList) then
      match decode (trimSuffixNL (joinNL [p])) with
      | some parsed =>
        if ev = ("done".toList) then (some parsed, some parsed) else (some parsed, none)
      | none => (last, none)
    else (last, none)) = _
  rw [hJ, if_neg (by rintro ⟨-, h2⟩; simp at h2)]

/-- A done record with a single decodable data line ends the read loop with
its decoded state, whatever follows and whatever was last seen. -/
lemma doneBlock {R : Type} (decode : List Char → Option R) (p : List Char) (s : R)
    (hp : lineSafe p) (hne : p ≠ []) (hd : decode p = some s)
    (rest : List (List Char)) (e : ReadEnd) (ls : Option R) :
    runSSELoop decode (eventLine ("done".toList) :: dataLine p :: [] :: rest) e
      ⟨[], []⟩ ls = .success s := by
  rw [step_eventLine decode _ (by decide), step_dataLine0 decode _ hp, step_blank,
    dispatch_single decode _ p ls (trimSuffixNL_of_lineSafe hp),
    if_neg hne, if_pos (Or.inr rfl), hd]
  rfl

/-- A record block whose payload does not decode is a no-op for the read
loop: the loop continues with the accumulator reset and the last-seen state
unchanged. -/
lemma recordBlock_noop {R : Type} (decode : List Char → Option R) (ev d : List Char)
    (hev : lineSafe ev) (hd : lineSafe d) (hdec : decode d = none)
    (rest : List (List Char)) (e : ReadEnd) (ls : Option R) :
    runSSELoop decode (eventLine ev :: dataLine d :: [] :: rest) e ⟨[], []⟩ ls =
      runSSELoop decode rest e ⟨[], []⟩ ls := by
  rw [step_eventLine decode ev hev, step_dataLine0 decode d hd, step_blank,
    dispatch_single decode ev d ls (trimSuffixNL_of_lineSafe hd)]
  by_cases hde : d = []
  · rw [if_pos hde]
  · rw [if_neg hde]
    by_cases hevid : ev = ("init".toList) ∨ ev = ("done".toList)
    · rw [if_pos hevid, hdec]
    · rw [if_neg hevid]

/-- An init record with a single decodable data line updates the last-seen
state and continues the loop. -/
lemma initBlock {R : Type} (decode : List Char → Option R) (p : List Char) (s : R)
    (hp : lineSafe p) (hne : p ≠ []) (hd : decode p = some s)
    (rest : List (List Char)) (e : ReadEnd) (ls : Option R) :
    runSSELoop decode (eventLine ("init".toList) :: dataLine p :: [] :: rest) e
      ⟨[], []⟩ ls = runSSELoop decode rest e ⟨[], []⟩ (some s) := by
  rw [step_eventLine decode _ (by decide), step_dataLine0 decode _ hp, step_blank,
    dispatch_single decode _ p ls (trimSuffixNL_of_lineSafe hp),
    if_neg hne, if_pos (Or.inl rfl), hd]
  rfl

/-- For a success status, RunStreamingAgentAndWait is the read loop. -/
lemma RunStreamingAgentAndWait_2xx {R VE : Type} (parseVE : List Char → Option VE)
    (decode : List Char → Option R) (url : List Char) (status : Nat) (raw : List Char)
    (lines : List (List Char)) (e : ReadEnd) (h1 : 200 ≤ status) (h2 : status < 300) :
    RunStreamingAgentAndWait parseVE decode url status raw lines e =
      liftOutcome (runSSELoop decode lines e ⟨[], []⟩ none) := by
  unfold RunStreamingAgentAndWait
  rw [if_neg (by omega)]
  rfl

/-- C1: for a stream whose lines encode an init record with decodable JSON
followed by a done record with decodable JSON, RunStreamingAgentAndWait
returns the state decoded from the done record's payload (not the init
state), and the read loop ends at that record: whatever lines follow and
however the stream would end are irrelevant. -/
theorem C1_done_supersedes_init {R VE : Type} (parseVE : List Char → Option VE)
    (decode : List Char → Option R) (url raw : List Char) (p1 p2 : List Char)
    (s1 s2 : R) (rest : List (List Char)) (e : ReadEnd)
    (hp1 : lineSafe p1) (hp2 : lineSafe p2) (hne2 : p2 ≠ [])
    (h1 : decode p1 = some s1) (h2 : decode p2 = some s2) :
    RunStreamingAgentAndWait parseVE decode url 200 raw
      (eventLine ("init".toList) :: dataLine p1 :: [] ::
        eventLine ("done".toList) :: dataLine p2 :: [] :: rest) e = .success s2 := by
  rw [RunStreamingAgentAndWait_2xx _ _ _ _ _ _ _ (by omega) (by omega)]
  by_cases hpe1 : p1 = []
  · subst hpe1
    rw [step_eventLine decode _ (by decide), step_dataLine0 decode _ hp1, step_blank,
      dispatch_single decode _ _ none (trimSuffixNL_of_lineSafe hp1), if_pos rfl]
    show liftOutcome (runSSELoop decode
      (eventLine ("done".toList) :: dataLine p2 :: [] :: rest) e ⟨[], []⟩ none) =
      StreamResult.success s2
    rw [doneBlock decode p2 s2 hp2 hne2 h2]
    rfl
  · rw [initBlock decode p1 s1 hp1 hpe1 h1, doneBlock decode p2 s2 hp2 hne2 h2]
    rfl

theorem C1_done_supersedes_init_witness :
    lineSafe ("1".toList) ∧ lineSafe ("2".toList) ∧ ("2".toList ≠ ([] : List Char))
    ∧ decNat ("1".toList) = some 1 ∧ decNat ("2".toList) = some 2
    ∧ RunStreamingAgentAndWait pvNone decNat [] 200 []
        (eventLine ("init".toList) :: dataLine ("1".toList) :: [] ::
          eventLine ("done".toList) :: dataLine ("2".toList) :: [] :: []) ReadEnd.eof =
        (StreamResult.success 2 : StreamResult Nat Nat) := by
  refine ⟨by decide, by decide, by decide, by decide, by decide, ?_⟩
  exact C1_done_supersedes_init pvNone decNat [] [] ("1".toList) ("2".toList) 1 2 []
    ReadEnd.eof (by decide) (by decide) (by decide) (by decide) (by decide)

/-- C3: on clean end-of-stream without a done record, a previously decoded
init record is returned as state with nil error; a stream that closes
immediately with no record at all yields the dedicated ended-before-done
error and no state. -/
theorem C3_clean_eof_fallback {R VE : Type} (parseVE : List Char → Option VE)
    (decode : List Char → Option R) (url raw : List Char) (p : List Char) (s : R)
    (hp : lineSafe p) (hne : p ≠ []) (hd : decode p = some s) :
    RunStreamingAgentAndWait parseVE decode url 200 raw
      (eventLine ("init".toList) :: dataLine p :: [] :: []) ReadEnd.eof = .success s
    ∧ RunStreamingAgentAndWait parseVE decode url 200 raw [] ReadEnd.eof =
        (StreamResult.endedBeforeDone : StreamResult R VE) := by
  constructor
  · rw [RunStreamingAgentAndWait_2xx _ _ _ _ _ _ _ (by omega) (by omega),
      initBlock decode p s hp hne hd]
    rfl
  · rw [RunStreamingAgentAndWait_2xx _ _ _ _ _ _ _ (by omega) (by omega)]
    rfl

theorem C3_clean_eof_fallback_witness :
    lineSafe ("1".toList) ∧ ("1".toList ≠ ([] : List Char)) ∧ decNat ("1".toList) = some 1
    ∧ RunStreamingAgentAndWait pvNone decNat [] 200 []
        (eventLine ("init".toList) :: dataLine ("1".toList) :: [] :: []) ReadEnd.eof =
        (StreamResult.success 1 : StreamResult Nat Nat)
    ∧ RunStreamingAgentAndWait pvNone decNat [] 200 [] [] ReadEnd.eof =
        (StreamResult.endedBeforeDone : StreamResult Nat Nat) := by
  refine ⟨by decide, by decide, by decide, ?_, ?_⟩
  · exact (C3_clean_eof_fallback pvNone decNat [] [] ("1".toList) 1
      (by decide) (by decide) (by decide)).1
  · exact (C3_clean_eof_fallback pvNone decNat [] [] ("1".toList) 1
      (by decide) (by decide) (by decide)).2

/-- C5: an init or done record whose payload fails to decode is a no-op: the
read loop continues with the last-known state unchanged, no completion and no
error; in particular an init record with malformed JSON followed by a valid
done record yields the done state. -/
theorem C5_decode_leniency {R VE : Type} (parseVE : List Char → Option VE)
    (decode : List Char → Option R) (url raw : List Char) (ev d : List Char)
    (ls : Option R) (lines : List (List Char)) (e : ReadEnd)
    (hev : ev = ("init".toList) ∨ ev = ("done".toList)) (hd : lineSafe d)
    (hdec : decode d = none) :
    (runSSELoop decode (eventLine ev :: dataLine d :: [] :: lines) e ⟨[], []⟩ ls =
      runSSELoop decode lines e ⟨[], []⟩ ls)
    ∧ ∀ (bad good : List Char) (s : R), lineSafe bad → lineSafe good → good ≠ [] →
        decode bad = none → decode good = some s →
        RunStreamingAgentAndWait parseVE decode url 200 raw
          (eventLine ("init".toList) :: dataLine bad :: [] ::
            eventLine ("done".toList) :: dataLine good :: [] :: []) ReadEnd.eof =
          .success s := by
  constructor
  · have hevs : lineSafe ev := by rcases hev with rfl | rfl <;> decide
    exact recordBlock_noop decode ev d hevs hd hdec lines e ls
  · intro bad good s hb hg hgne hdb hdg
    rw [RunStreamingAgentAndWait_2xx _ _ _ _ _ _ _ (by omega) (by omega),
      recordBlock_noop decode _ bad (by decide) hb hdb,
      doneBlock decode good s hg hgne hdg]
    rfl

theorem C5_decode_leniency_witness :
    (("init".toList = ("init".toList) ∨ "init".toList = ("done".toList))
      ∧ lineSafe ("0".toList) ∧ decNat ("0".toList) = none)
    ∧ runSSELoop decNat
        (eventLine ("init".toList) :: dataLine ("0".toList) :: [] :: []) ReadEnd.eof
        ⟨[], []⟩ (some 7) = runSSELoop decNat [] ReadEnd.eof ⟨[], []⟩ (some 7)
    ∧ RunStreamingAgentAndWait pvNone decNat [] 200 []
        (eventLine ("init".toList) :: dataLine ("0".toList) :: [] ::
          eventLine ("done".toList) :: dataLine ("2".toList) :: [] :: []) ReadEnd.eof =
        (StreamResult.success 2 : StreamResult Nat Nat) := by
  refine ⟨⟨Or.inl rfl, by decide, by decide⟩, ?_, ?_⟩
  · exact (C5_decode_leniency pvNone decNat [] [] ("init".toList) ("0".toList)
      (some 7) [] ReadEnd.eof (Or.inl rfl) (by decide) (by decide)).1
  · exact (C5_decode_leniency pvNone decNat [] [] ("init".toList) ("0".toList)
      (some 7) [] ReadEnd.eof (Or.inl rfl) (by decide) (by decide)).2
      ("0".toList) ("2".toList) 2 (by decide) (by decide) (by decide) (by decide) (by decide)

/-- C2 counterexample: a stream that decodes a valid init state and then ends
with a non-EOF read error does not return the last-known state; the read
error is propagated instead, contradicting the claim for the read-error
case.  (The same stream ending in a clean EOF does return the state.) -/
theorem C2_read_error_counterexample :
    RunStreamingAgentAndWait pvNone decNat [] 200 []
        (eventLine ("init".toList) :: dataLine ("1".toList) :: [] :: []) ReadEnd.eof =
      (StreamResult.success 1 : StreamResult Nat Nat)
    ∧ RunStreamingAgentAndWait pvNone decNat [] 200 []
        (eventLine ("init".toList) :: dataLine ("1".toList) :: [] :: [])
        (ReadEnd.fail ("reset".toList)) =
      (StreamResult.readFail ("reset".toList) : StreamResult Nat Nat)
    ∧ (StreamResult.readFail ("reset".toList) : StreamResult Nat Nat) ≠
        StreamResult.success 1 := by
  exact ⟨by decide, by decide, by decide⟩

/-- Equation lemma for the tracker on a cons cell. -/
lemma trackRecords_cons {R : Type} (decode : List Char → Option R) (ev d : List Char)
    (rest : List (List Char × List Char)) (e : ReadEnd) (last : Option R) :
    trackRecords decode ((ev, d) :: rest) e last =
      if ev = ("init".toList) ∨ ev = ("done".toList) then
        match decode d with
        | some s =>
          if ev = ("done".toList) then .success s else trackRecords decode rest e (some s)
        | none => trackRecords decode rest e last
      else trackRecords decode rest e last := rfl

/-- Equation lemma for lastDecodedFrom on a cons cell. -/
lemma lastDecodedFrom_cons {R : Type} (decode : List Char → Option R) (last0 : Option R)
    (ev d : List Char) (rs : List (List Char × List Char)) :
    lastDecodedFrom decode last0 ((ev, d) :: rs) =
      lastDecodedFrom decode
        (if ev = ("init".toList) ∨ ev = ("done".toList) then
          match decode d with
          | some s => some s
          | none => last0
        else last0) rs := rfl

/-- The tracker run over a dispatched record (or nothing) agrees with the
dispatch closure. -/
lemma track_append_dispatch {R : Type} (decode : List Char → Option R) (a : PAcc)
    (last : Option R) (recs : List (List Char × List Char)) (e : ReadEnd) :
    trackRecords decode ((pdispatch a).toList ++ recs) e last =
      match dispatch decode a last with
      | (_, some d) => StreamOutcome.success d
      | (last2, none) => trackRecords decode recs e last2 := by
  unfold pdispatch dispatch
  by_cases h1 : a.currentEvent = [] ∧ a.dataLines = []
  · rw [if_pos h1, if_pos h1]; rfl
  · rw [if_neg h1, if_neg h1]
    by_cases h2 : trimSuffixNL (joinNL a.dataLines) = []
    · rw [if_pos h2, if_pos h2]; rfl
    · rw [if_neg h2, if_neg h2]
      rw [show ((some (a.currentEvent, trimSuffixNL (joinNL a.dataLines))).toList ++ recs)
            = (a.currentEvent, trimSuffixNL (joinNL a.dataLines)) :: recs from rfl,
        trackRecords_cons]
      by_cases h3 : a.currentEvent = ("init".toList) ∨ a.currentEvent = ("done".toList)
      · rw [if_pos h3, if_pos h3]
        cases hdec : decode (trimSuffixNL (joinNL a.dataLines)) with
        | none => rfl
        | some s =>
          show (if a.currentEvent = ("done".toList) then StreamOutcome.success s
              else trackRecords decode recs e (some s)) =
            match (if a.currentEvent = ("done".toList) then (some s, some s)
                else (some s, none)) with
            | (_, some d) => StreamOutcome.success d
            | (last2, none) => trackRecords decode recs e last2
          by_cases h4 : a.currentEvent = ("done".toList)
          · rw [if_pos h4, if_pos h4]
          · rw [if_neg h4, if_neg h4]
      · rw [if_neg h3, if_neg h3]

/-- Bridge: the read loop is the tracker applied to the dispatched record
sequence of the parser. -/
lemma runSSELoop_eq_trackRecords {R : Type} (decode : List Char → Option R) :
    ∀ (lines : List (List Char)) (e : ReadEnd) (a : PAcc) (last : Option R),
      runSSELoop decode lines e a last =
        trackRecords decode (parseRecords lines e a) e last := by
  intro lines
  induction lines with
  | nil =>
    intro e a last
    cases e with
    | eof =>
      have h := track_append_dispatch decode a last [] ReadEnd.eof
      rw [List.append_nil] at h
      rw [show parseRecords [] ReadEnd.eof a = (pdispatch a).toList from rfl, h]
      show (match dispatch decode a last with
        | (_, some d) => StreamOutcome.success d
        | (last2, none) =>
          match last2 with
          | some s => StreamOutcome.success s
          | none => StreamOutcome.endedBeforeDone) = _
      cases hD : dispatch decode a last with
      | mk l2 od => cases od <;> rfl
    | fail m => rfl
  | cons rl rest ih =>
    intro e a last
    rw [runSSELoop_cons, parseRecords_cons]
    by_cases h1 : trimRightRN rl = []
    · rw [if_pos h1, if_pos h1, track_append_dispatch decode a last _ e]
      cases hD : dispatch decode a last with
      | mk l2 od =>
        cases od with
        | none => exact ih e ⟨[], []⟩ l2
        | some d => rfl
    · rw [if_neg h1, if_neg h1]
      by_cases h2 : (trimRightRN rl).head? = some ':'
      · rw [if_pos h2, if_pos h2]; exact ih e a last
      · rw [if_neg h2, if_neg h2]; exact ih e (processField (trimRightRN rl) a) last

/-- When no dispatched done record decodes, the tracker at clean EOF resolves
to the last decoded state (or the dedicated error when there is none). -/
lemma trackRecords_eof_nodone {R : Type} (decode : List Char → Option R) :
    ∀ (rs : List (List Char × List Char)) (last0 : Option R),
      (∀ r ∈ rs, r.1 = ("done".toList) → decode r.2 = none) →
      trackRecords decode rs ReadEnd.eof last0 =
        match lastDecodedFrom decode last0 rs with
        | some s => StreamOutcome.success s
        | none => StreamOutcome.endedBeforeDone := by
  intro rs
  induction rs with
  | nil => intro last0 h; rfl
  | cons r rs ih =>
    intro last0 h
    obtain ⟨ev, d⟩ := r
    rw [trackRecords_cons]
    by_cases h3 : ev = ("init".toList) ∨ ev = ("done".toList)
    · rw [if_pos h3]
      cases hdec : decode d with
      | some s =>
        have hnd : ev ≠ ("done".toList) := by
          intro hh
          have h0 := h (ev, d) (List.mem_cons_self _ _) hh
          rw [h0] at hdec
          cases hdec
        show (if ev = ("done".toList) then StreamOutcome.success s
            else trackRecords decode rs ReadEnd.eof (some s)) = _
        rw [if_neg hnd, ih (some s) (fun r hr => h r (List.mem_cons_of_mem _ hr)),
          show lastDecodedFrom decode last0 ((ev, d) :: rs) = lastDecodedFrom decode (some s) rs
            from by rw [lastDecodedFrom_cons, if_pos h3, hdec]]
      | none =>
        rw [ih last0 (fun r hr => h r (List.mem_cons_of_mem _ hr)),
          show lastDecodedFrom decode last0 ((ev, d) :: rs) = lastDecodedFrom decode last0 rs
            from by rw [lastDecodedFrom_cons, if_pos h3, hdec]]
    · rw [if_neg h3, ih last0 (fun r hr => h r (List.mem_cons_of_mem _ hr)),
        show lastDecodedFrom decode last0 ((ev, d) :: rs) = lastDecodedFrom decode last0 rs
          from by rw [lastDecodedFrom_cons, if_neg h3]]

/-- When no dispatched done record decodes, the tracker propagates a read
error unchanged. -/
lemma trackRecords_fail_nodone {R : Type} (decode : List Char → Option R) :
    ∀ (rs : List (List Char × List Char)) (last0 : Option R) (m : List Char),
      (∀ r ∈ rs, r.1 = ("done".toList) → decode r.2 = none) →
      trackRecords decode rs (ReadEnd.fail m) last0 = .readError m := by
  intro rs
  induction rs with
  | nil => intro last0 m h; rfl
  | cons r rs ih =>
    intro last0 m h
    obtain ⟨ev, d⟩ := r
    rw [trackRecords_cons]
    by_cases h3 : ev = ("init".toList) ∨ ev = ("done".toList)
    · rw [if_pos h3]
      cases hdec : decode d with
      | some s =>
        have hnd : ev ≠ ("done".toList) := by
          intro hh
          have h0 := h (ev, d) (List.mem_cons_self _ _) hh
          rw [h0] at hdec
          cases hdec
        show (if ev = ("done".toList) then StreamOutcome.success s
            else trackRecords decode rs (ReadEnd.fail m) (some s)) = _
        rw [if_neg hnd]
        exact ih (some s) m (fun r hr => h r (List.mem_cons_of_mem _ hr))
      | none => exact ih last0 m (fun r hr => h r (List.mem_cons_of_mem _ hr))
    · rw [if_neg h3]
      exact ih last0 m (fun r hr => h r (List.mem_cons_of_mem _ hr))

/-- C2 (amended): when at least one valid state was decoded from the
dispatched records and no dispatched done record decodes, a CLEAN
end-of-stream returns the last decoded state as a best-effort result without
error; a non-EOF read error is instead propagated unchanged and no state is
returned. -/
theorem C2_best_effort_amended {R VE : Type} (parseVE : List Char → Option VE)
    (decode : List Char → Option R) (url raw : List Char) (lines : List (List Char)) (s : R)
    (hnd : ∀ r ∈ parseRecords lines ReadEnd.eof ⟨[], []⟩,
      r.1 = ("done".toList) → decode r.2 = none)
    (hls : lastDecodedState decode (parseRecords lines ReadEnd.eof ⟨[], []⟩) = some s) :
    RunStreamingAgentAndWait parseVE decode url 200 raw lines ReadEnd.eof = .success s
    ∧ ∀ m : List Char,
        (∀ r ∈ parseRecords lines (ReadEnd.fail m) ⟨[], []⟩,
          r.1 = ("done".toList) → decode r.2 = none) →
        RunStreamingAgentAndWait parseVE decode url 200 raw lines (ReadEnd.fail m) =
          .readFail m := by
  constructor
  · rw [RunStreamingAgentAndWait_2xx _ _ _ _ _ _ _ (by omega) (by omega),
      runSSELoop_eq_trackRecords decode lines ReadEnd.eof ⟨[], []⟩ none,
      trackRecords_eof_nodone decode _ none hnd,
      show lastDecodedFrom decode none (parseRecords lines ReadEnd.eof ⟨[], []⟩) = some s
        from hls]
    rfl
  · intro m hm
    rw [RunStreamingAgentAndWait_2xx _ _ _ _ _ _ _ (by omega) (by omega),
      runSSELoop_eq_trackRecords decode lines (ReadEnd.fail m) ⟨[], []⟩ none,
      trackRecords_fail_nodone decode _ none m hm]
    rfl

theorem C2_best_effort_amended_witness :
    (∀ r ∈ parseRecords (eventLine ("init".toList) :: dataLine ("1".toList) :: [] :: [])
        ReadEnd.eof ⟨[], []⟩, r.1 = ("done".toList) → decNat r.2 = none)
    ∧ lastDecodedState decNat
        (parseRecords (eventLine ("init".toList) :: dataLine ("1".toList) :: [] :: [])
          ReadEnd.eof ⟨[], []⟩) = some 1
    ∧ RunStreamingAgentAndWait pvNone decNat [] 200 []
        (eventLine ("init".toList) :: dataLine ("1".toList) :: [] :: []) ReadEnd.eof =
        (StreamResult.success 1 : StreamResult Nat Nat)
    ∧ RunStreamingAgentAndWait pvNone decNat [] 200 []
        (eventLine ("init".toList) :: dataLine ("1".toList) :: [] :: [])
        (ReadEnd.fail ("x".toList)) =
        (StreamResult.readFail ("x".toList) : StreamResult Nat Nat) := by
  refine ⟨by decide, by decide, ?_, ?_⟩
  · exact (C2_best_effort_amended pvNone decNat [] [] _ 1 (by decide) (by decide)).1
  · exact (C2_best_effort_amended pvNone decNat [] [] _ 1 (by decide) (by decide)).2
      ("x".toList) (by decide)

/-- One line of the accumulation phase: a comment line is skipped, any other
line is processed as a field line (applied only to non-blank lines). -/
def stepAcc (a : PAcc) (rl : List Char) : PAcc :=
  if (trimRightRN rl).head? = some ':' then a else processField (trimRightRN rl) a

/-- A block of non-blank lines only accumulates: the parser on block ++ lines
is the parser on lines started from the folded accumulator. -/
lemma parseRecords_fieldBlock :
    ∀ (block lines : List (List Char)) (e : ReadEnd) (a : PAcc),
      (∀ rl ∈ block, trimRightRN rl ≠ []) →
      parseRecords (block ++ lines) e a = parseRecords lines e (block.foldl stepAcc a) := by
  intro block
  induction block with
  | nil => intro lines e a hb; rfl
  | cons rl block ih =>
    intro lines e a hb
    rw [List.cons_append, parseRecords_cons, if_neg (hb rl (List.mem_cons_self _ _)),
      List.foldl_cons]
    by_cases h2 : (trimRightRN rl).head? = some ':'
    · rw [if_pos h2, ih lines e a (fun x hx => hb x (List.mem_cons_of_mem _ hx)),
        show stepAcc a rl = a from by unfold stepAcc; rw [if_pos h2]]
    · rw [if_neg h2,
        ih lines e (processField (trimRightRN rl) a)
          (fun x hx => hb x (List.mem_cons_of_mem _ hx)),
        show stepAcc a rl = processField (trimRightRN rl) a from by
          unfold stepAcc; rw [if_neg h2]]

/-- Folding a block of non-blank lines appends exactly the values of its data
lines, in arrival order, to the accumulated data lines. -/
lemma stepAcc_fold_dataLines :
    ∀ (block : List (List Char)) (a : PAcc),
      (∀ rl ∈ block, trimRightRN rl ≠ []) →
      (block.foldl stepAcc a).dataLines = a.dataLines ++ block.filterMap lineDataValue := by
  intro block
  induction block with
  | nil => intro a hb; rw [show List.filterMap lineDataValue [] = [] from rfl, List.append_nil]; rfl
  | cons rl block ih =>
    intro a hb
    have hne := hb rl (List.mem_cons_self _ _)
    have hrest : ∀ x ∈ block, trimRightRN x ≠ [] :=
      fun x hx => hb x (List.mem_cons_of_mem _ hx)
    rw [List.foldl_cons]
    by_cases h2 : (trimRightRN rl).head? = some ':'
    · rw [show stepAcc a rl = a from by unfold stepAcc; rw [if_pos h2],
        ih a hrest,
        List.filterMap_cons_none
          (show lineDataValue rl = none from by
            unfold lineDataValue; rw [if_neg hne, if_pos h2])]
    · rw [show stepAcc a rl = processField (trimRightRN rl) a from by
        unfold stepAcc; rw [if_neg h2],
        ih (processField (trimRightRN rl) a) hrest]
      by_cases hdat : (splitFirstColon (trimRightRN rl)).1 = ("data".toList)
      · have hev : ¬ (splitFirstColon (trimRightRN rl)).1 = ("event".toList) := by
          rw [hdat]; decide
        rw [show (processField (trimRightRN rl) a).dataLines
              = a.dataLines ++ [stripLeadSpace (splitFirstColon (trimRightRN rl)).2] from by
            unfold processField; rw [if_neg hev, if_pos hdat],
          List.filterMap_cons_some
            (show lineDataValue rl
                = some (stripLeadSpace (splitFirstColon (trimRightRN rl)).2) from by
              unfold lineDataValue; rw [if_neg hne, if_neg h2, if_pos hdat]),
          List.append_assoc]
        rfl
      · have hpf : (processField (trimRightRN rl) a).dataLines = a.dataLines := by
          unfold processField
          by_cases hev : (splitFirstColon (trimRightRN rl)).1 = ("event".toList)
          · rw [if_pos hev]
          · rw [if_neg hev, if_neg hdat]
        rw [hpf,
          List.filterMap_cons_none
            (show lineDataValue rl = none from by
              unfold lineDataValue; rw [if_neg hne, if_neg h2, if_neg hdat])]

/-- The record emitted by one dispatch, as a list. -/
lemma pdispatch_toList (a : PAcc) :
    (pdispatch a).toList =
      if trimSuffixNL (joinNL a.dataLines) = [] then []
      else [(a.currentEvent, trimSuffixNL (joinNL a.dataLines))] := by
  unfold pdispatch
  by_cases h1 : a.currentEvent = [] ∧ a.dataLines = []
  · rw [if_pos h1, h1.2,
      if_pos (show trimSuffixNL (joinNL ([] : List (List Char))) = [] from rfl)]
    rfl
  · rw [if_neg h1]
    by_cases h2 : trimSuffixNL (joinNL a.dataLines) = []
    · rw [if_pos h2, if_pos h2]
      rfl
    · rw [if_neg h2, if_neg h2]
      rfl

/-- C4: a record dispatched at a blank-line boundary, or at clean end of
stream, carries as payload exactly the accumulated data-line values in
arrival order joined with a newline, with exactly one trailing newline
removed if present; a record whose joined data is empty after this trim is
dropped silently and never appears among the dispatched records. -/
theorem C4_dispatch_payload_join (ev0 : List Char) (dls0 : List (List Char))
    (block rest : List (List Char)) (e : ReadEnd)
    (hb : ∀ rl ∈ block, trimRightRN rl ≠ []) :
    ∃ ev2 : List Char,
      parseRecords (block ++ [] :: rest) e ⟨ev0, dls0⟩ =
        (if trimSuffixNL (joinNL (dls0 ++ block.filterMap lineDataValue)) = [] then []
         else [(ev2, trimSuffixNL (joinNL (dls0 ++ block.filterMap lineDataValue)))])
          ++ parseRecords rest e ⟨[], []⟩
      ∧ parseRecords block ReadEnd.eof ⟨ev0, dls0⟩ =
        (if trimSuffixNL (joinNL (dls0 ++ block.filterMap lineDataValue)) = [] then []
         else [(ev2, trimSuffixNL (joinNL (dls0 ++ block.filterMap lineDataValue)))]) := by
  refine ⟨(block.foldl stepAcc ⟨ev0, dls0⟩).currentEvent, ?_, ?_⟩
  · rw [parseRecords_fieldBlock block ([] :: rest) e ⟨ev0, dls0⟩ hb, parseRecords_cons,
      if_pos (show trimRightRN [] = [] from rfl), pdispatch_toList,
      stepAcc_fold_dataLines block ⟨ev0, dls0⟩ hb]
  · have h := parseRecords_fieldBlock block [] ReadEnd.eof ⟨ev0, dls0⟩ hb
    rw [List.append_nil] at h
    rw [h,
      show parseRecords [] ReadEnd.eof (block.foldl stepAcc ⟨ev0, dls0⟩) =
        (pdispatch (block.foldl stepAcc ⟨ev0, dls0⟩)).toList from rfl,
      pdispatch_toList, stepAcc_fold_dataLines block ⟨ev0, dls0⟩ hb]

theorem C4_dispatch_payload_join_witness :
    (∀ rl ∈ [("data: a".toList), ("data: b".toList)], trimRightRN rl ≠ [])
    ∧ ∃ ev2 : List Char,
        parseRecords ([("data: a".toList), ("data: b".toList)] ++ [] :: []) ReadEnd.eof
            ⟨[], []⟩ =
          (if trimSuffixNL (joinNL ([] ++
              List.filterMap lineDataValue [("data: a".toList), ("data: b".toList)])) = []
            then []
            else [(ev2, trimSuffixNL (joinNL ([] ++
              List.filterMap lineDataValue [("data: a".toList), ("data: b".toList)])))])
            ++ parseRecords [] ReadEnd.eof ⟨[], []⟩
        ∧ parseRecords [("data: a".toList), ("data: b".toList)] ReadEnd.eof ⟨[], []⟩ =
          (if trimSuffixNL (joinNL ([] ++
              List.filterMap lineDataValue [("data: a".toList), ("data: b".toList)])) = []
            then []
            else [(ev2, trimSuffixNL (joinNL ([] ++
              List.filterMap lineDataValue [("data: a".toList), ("data: b".toList)])))]) :=
  ⟨by decide,
    C4_dispatch_payload_join [] [] [("data: a".toList), ("data: b".toList)] [] ReadEnd.eof
      (by decide)⟩

/-- C6: a line containing a colon splits at its FIRST colon into field name
and value (with exactly one leading space removed from the value); a line
without a colon is a field name with empty value; field "event" overwrites
the event type, field "data" appends one data line, and any other field name
leaves the accumulator unchanged. -/
theorem C6_field_line_parsing (a : PAcc) (pre post l : List Char) :
    ((':' ∉ pre) →
      processField (pre ++ ':' :: post) a =
        (if pre = ("event".toList) then ⟨stripLeadSpace post, a.dataLines⟩
         else if pre = ("data".toList) then
           ⟨a.currentEvent, a.dataLines ++ [stripLeadSpace post]⟩
         else a))
    ∧ ((':' ∉ l) →
      processField l a =
        (if l = ("event".toList) then ⟨[], a.dataLines⟩
         else if l = ("data".toList) then ⟨a.currentEvent, a.dataLines ++ [[]]⟩
         else a)) := by
  constructor
  · intro h
    unfold processField
    rw [splitFirstColon_first h post]
  · intro h
    unfold processField
    rw [splitFirstColon_no_colon h]
    rfl

theorem C6_field_line_parsing_witness :
    (':' ∉ ("data".toList)) ∧ (':' ∉ ("event".toList))
    ∧ processField (("data".toList) ++ ':' :: (" x".toList)) ⟨[], []⟩ =
        ⟨[], [("x".toList)]⟩
    ∧ processField ("event".toList) ⟨("old".toList), []⟩ = ⟨[], []⟩ := by
  refine ⟨by decide, by decide, ?_, ?_⟩
  · exact ((C6_field_line_parsing ⟨[], []⟩ ("data".toList) (" x".toList)
      ("event".toList)).1 (by decide)).trans (by decide)
  · exact ((C6_field_line_parsing ⟨("old".toList), []⟩ ("data".toList) (" x".toList)
      ("event".toList)).2 (by decide)).trans (by decide)

/-- C7: inserting any number of comment lines (lines beginning with a colon)
at any positions of the stream leaves the sequence of dispatched non-empty
records unchanged. -/
theorem C7_comment_invisibility :
    ∀ (xs ys : List (List Char)), CommentInsertion xs ys →
      ∀ (e : ReadEnd) (a : PAcc), parseRecords ys e a = parseRecords xs e a := by
  intro xs ys h
  induction h with
  | nil => intro e a; rfl
  | keep l h ih =>
    intro e a
    rw [parseRecords_cons, parseRecords_cons]
    by_cases h1 : trimRightRN l = []
    · rw [if_pos h1, if_pos h1, ih e ⟨[], []⟩]
    · rw [if_neg h1, if_neg h1]
      by_cases h2 : (trimRightRN l).head? = some ':'
      · rw [if_pos h2, if_pos h2]
        exact ih e a
      · rw [if_neg h2, if_neg h2]
        exact ih e (processField (trimRightRN l) a)
  | comment c hc h ih =>
    intro e a
    obtain ⟨hne, hh⟩ := trimRightRN_comment hc
    rw [parseRecords_cons, if_neg hne, if_pos hh]
    exact ih e a

theorem C7_comment_invisibility_witness :
    CommentInsertion [dataLine ("1".toList), []]
        [(":ka".toList), dataLine ("1".toList), [], (":".toList)]
    ∧ parseRecords [(":ka".toList), dataLine ("1".toList), [], (":".toList)]
        ReadEnd.eof ⟨[], []⟩ =
      parseRecords [dataLine ("1".toList), []] ReadEnd.eof ⟨[], []⟩ := by
  have hci : CommentInsertion [dataLine ("1".toList), []]
      [(":ka".toList), dataLine ("1".toList), [], (":".toList)] :=
    CommentInsertion.comment _ rfl
      (CommentInsertion.keep _ (CommentInsertion.keep _
        (CommentInsertion.comment _ rfl CommentInsertion.nil)))
  exact ⟨hci, C7_comment_invisibility _ _ hci ReadEnd.eof ⟨[], []⟩⟩

/-- C8: a call whose context carries no deadline (including a nil context)
runs under a transparently applied default 60-second deadline; a context that
already carries a deadline is used as-is and no default is substituted. -/
theorem C8_default_deadline (now : Nat) :
    streamContext none now = ⟨some (now + 60)⟩
    ∧ streamContext (some contextBackground) now = ⟨some (now + 60)⟩
    ∧ ∀ t : Nat, streamContext (some ⟨some t⟩) now = ⟨some t⟩ :=
  ⟨rfl, rfl, fun _ => rfl⟩

/-- C9: every non-2xx status makes both Do and RunStreamingAgentAndWait
return an error carrying the status code, method, URL and trimmed body text,
before any stream parsing (the streaming result does not depend on the stream
at all); for status 422 the error is the validation variant, whose structured
payload is populated exactly when the body decodes as the validation shape. -/
theorem C9_non_2xx_error {R VE O : Type} (parseVE : List Char → Option VE)
    (decodeOut : List Char → Option O) (decode : List Char → Option R)
    (method url raw : List Char) (status : Nat) (outNil : Bool)
    (lines lines2 : List (List Char)) (e e2 : ReadEnd)
    (h : status < 200 ∨ 300 ≤ status) (hpe : parseVE [] = none) :
    (Do parseVE decodeOut method url status raw outNil =
      if status = 422 then
        DoResult.validationFail ⟨status, method, url, trimSpace raw⟩ (parseVE raw)
      else DoResult.statusFail ⟨status, method, url, trimSpace raw⟩)
    ∧ (RunStreamingAgentAndWait parseVE decode url status raw lines e =
      if status = 422 then
        StreamResult.validationFail ⟨status, ("POST".toList), url, trimSpace raw⟩
          (parseVE raw)
      else StreamResult.statusFail ⟨status, ("POST".toList), url, trimSpace raw⟩)
    ∧ RunStreamingAgentAndWait parseVE decode url status raw lines e =
        RunStreamingAgentAndWait parseVE decode url status raw lines2 e2 := by
  have hdo : Do parseVE decodeOut method url status raw outNil =
      if status = 422 then
        DoResult.validationFail ⟨status, method, url, trimSpace raw⟩ (parseVE raw)
      else DoResult.statusFail ⟨status, method, url, trimSpace raw⟩ := by
    unfold Do
    rw [if_pos h]
    by_cases h422 : status = 422
    · rw [if_pos h422, if_pos h422]
      by_cases hr : raw = []
      · subst hr
        rw [if_neg (by simp), hpe]
      · rw [if_pos hr]
        cases hpv : parseVE raw <;> rfl
    · rw [if_neg h422, if_neg h422]
  have key : ∀ (ls : List (List Char)) (ee : ReadEnd),
      RunStreamingAgentAndWait parseVE decode url status raw ls ee =
        if status = 422 then
          StreamResult.validationFail ⟨status, ("POST".toList), url, trimSpace raw⟩
            (parseVE raw)
        else StreamResult.statusFail ⟨status, ("POST".toList), url, trimSpace raw⟩ := by
    intro ls ee
    unfold RunStreamingAgentAndWait
    rw [if_pos h]
    by_cases h422 : status = 422
    · rw [if_pos h422, if_pos h422]
      by_cases hr : raw = []
      · subst hr
        rw [if_neg (by simp), hpe]
      · rw [if_pos hr]
        cases hpv : parseVE raw <;> rfl
    · rw [if_neg h422, if_neg h422]
  exact ⟨hdo, key lines e, (key lines e).trans (key lines2 e2).symm⟩

theorem C9_non_2xx_error_witness :
    ((404 : Nat) < 200 ∨ 300 ≤ 404) ∧ pvNone [] = none
    ∧ Do pvNone decNat ("GET".toList) ("u".toList) 404 ("nf".toList) false =
        (DoResult.statusFail ⟨404, ("GET".toList), ("u".toList), ("nf".toList)⟩
          : DoResult Nat Nat)
    ∧ RunStreamingAgentAndWait pvNone decNat ("u".toList) 422 ("bad".toList)
        [dataLine ("1".toList)] ReadEnd.eof =
      (StreamResult.validationFail ⟨422, ("POST".toList), ("u".toList), ("bad".toList)⟩
          none
        : StreamResult Nat Nat) := by
  refine ⟨by omega, rfl, ?_, ?_⟩
  · exact (C9_non_2xx_error pvNone decNat decNat ("GET".toList) ("u".toList)
      ("nf".toList) 404 false [] [] ReadEnd.eof ReadEnd.eof (by omega) rfl).1.trans
      (by decide)
  · exact ((C9_non_2xx_error pvNone decNat decNat ("POST".toList) ("u".toList)
      ("bad".toList) 422 false [dataLine ("1".toList)] [] ReadEnd.eof ReadEnd.eof
      (by omega) rfl).2.1).trans (by decide)

/-- C10: for a 2xx response with an empty body, Do returns nil error and never
writes to out (no JSON decoding is attempted); likewise a nil out gives nil
error for any 2xx body. -/
theorem C10_empty_body_no_decode {VE O : Type} (parseVE : List Char → Option VE)
    (decodeOut : List Char → Option O) (method url raw : List Char) (status : Nat)
    (outNil : Bool) (h1 : 200 ≤ status) (h2 : status < 300) :
    (raw = [] → Do parseVE decodeOut method url status raw outNil = .ok none)
    ∧ (outNil = true → Do parseVE decodeOut method url status raw outNil = .ok none) := by
  constructor
  · intro hr
    unfold Do
    rw [if_neg (by omega)]
    by_cases ho : outNil = true
    · rw [if_pos ho]
    · rw [if_neg ho, if_pos hr]
  · intro ho
    unfold Do
    rw [if_neg (by omega), if_pos ho]

theorem C10_empty_body_no_decode_witness :
    (200 ≤ 204 ∧ (204 : Nat) < 300)
    ∧ Do pvNone decNat ("GET".toList) ("u".toList) 204 [] false =
        (DoResult.ok none : DoResult Nat Nat)
    ∧ Do pvNone decNat ("GET".toList) ("u".toList) 200 ("body".toList) true =
        (DoResult.ok none : DoResult Nat Nat) := by
  refine ⟨⟨by omega, by omega⟩, ?_, ?_⟩
  · exact (C10_empty_body_no_decode pvNone decNat ("GET".toList) ("u".toList) [] 204
      false (by omega) (by omega)).1 rfl
  · exact (C10_empty_body_no_decode pvNone decNat ("GET".toList) ("u".toList)
      ("body".toList) 200 true (by omega) (by omega)).2 rfl
